import Mathlib

/-!
Verification of the query-result cache and execution coordinator of the
sqlite-multi-db-rest-api service (`src/main.py`, `src/services/cache_service.py`).

Modelling conventions:
* Python `dict`s (insertion-ordered) are association lists with unique keys;
  `dictSet` updates in place or appends, matching CPython semantics.
* Python `list`s of keys are Lean `List String`; `list.remove(x)` is
  `listRemove` (first occurrence), `list.pop(0)` is pattern matching on the head.
* Wall-clock instants (`time.time()`) are integers passed explicitly to each
  operation; elapsed durations are likewise explicit parameters.
* The md5 digest in `generate_cache_key` is dropped: the model's key is the
  pre-image string `f"{db_name}:{query_normalized}:{params_str}"`; equal
  pre-images give equal digests, so every key equality proved here holds for
  the real hex digest as well.
* Characters are treated at ASCII level (`str.lower`/`str.upper` on SQL text).
* The external sqlean engine (connect, cursor.execute, fetchall, commit) is an
  oracle `EngineOutcome`: either the rows plus rowcount of a successful
  interaction, or the message of the exception it raised.
-/

/-- Lookup in a Python dict modelled as an association list. -/
def dictLookup {α : Type} : List (String × α) → String → Option α
  | [], _ => none
  | (k, v) :: rest, key => if k = key then some v else dictLookup rest key

/-- Python `key in d`. -/
def dictContains {α : Type} (d : List (String × α)) (key : String) : Bool :=
  (dictLookup d key).isSome

/-- Python `d[key] = v`: update in place if present, else append (CPython
insertion order). -/
def dictSet {α : Type} : List (String × α) → String → α → List (String × α)
  | [], key, v => [(key, v)]
  | (k, w) :: rest, key, v =>
    if k = key then (k, v) :: rest else (k, w) :: dictSet rest key v

/-- Python `del d[key]` guarded by `if key in d` (removes the unique binding;
on a list with duplicate keys it removes them all, which coincides on the
unique-key states a Python dict can be in). -/
def dictDelete {α : Type} (d : List (String × α)) (key : String) : List (String × α) :=
  d.filter (fun p => p.1 ≠ key)

/-- The keys of a dict, in insertion order. -/
def dictKeys {α : Type} (d : List (String × α)) : List String :=
  d.map Prod.fst

/-- Python `list.remove(x)`: drop the first occurrence, identity when absent
(the source always guards the call with `if x in l`). -/
def listRemove : List String → String → List String
  | [], _ => []
  | y :: rest, x => if y = x then rest else y :: listRemove rest x

/-! ### String normalization (`generate_cache_key` helpers) -/

/-- ASCII lower-casing of one character, as Python `str.lower` acts on the
characters appearing in SQL text. -/
def pyLowerChar (c : Char) : Char :=
  if c = 'A' then 'a' else if c = 'B' then 'b' else if c = 'C' then 'c'
  else if c = 'D' then 'd' else if c = 'E' then 'e' else if c = 'F' then 'f'
  else if c = 'G' then 'g' else if c = 'H' then 'h' else if c = 'I' then 'i'
  else if c = 'J' then 'j' else if c = 'K' then 'k' else if c = 'L' then 'l'
  else if c = 'M' then 'm' else if c = 'N' then 'n' else if c = 'O' then 'o'
  else if c = 'P' then 'p' else if c = 'Q' then 'q' else if c = 'R' then 'r'
  else if c = 'S' then 's' else if c = 'T' then 't' else if c = 'U' then 'u'
  else if c = 'V' then 'v' else if c = 'W' then 'w' else if c = 'X' then 'x'
  else if c = 'Y' then 'y' else if c = 'Z' then 'z' else c

/-- ASCII upper-casing of one character (Python `str.upper` on SQL text). -/
def pyUpperChar (c : Char) : Char :=
  if c = 'a' then 'A' else if c = 'b' then 'B' else if c = 'c' then 'C'
  else if c = 'd' then 'D' else if c = 'e' then 'E' else if c = 'f' then 'F'
  else if c = 'g' then 'G' else if c = 'h' then 'H' else if c = 'i' then 'I'
  else if c = 'j' then 'J' else if c = 'k' then 'K' else if c = 'l' then 'L'
  else if c = 'm' then 'M' else if c = 'n' then 'N' else if c = 'o' then 'O'
  else if c = 'p' then 'P' else if c = 'q' then 'Q' else if c = 'r' then 'R'
  else if c = 's' then 'S' else if c = 't' then 'T' else if c = 'u' then 'U'
  else if c = 'v' then 'V' else if c = 'w' then 'W' else if c = 'x' then 'X'
  else if c = 'y' then 'Y' else if c = 'z' then 'Z' else c

/-- Python `str.lower()`. -/
def pyLower (s : String) : String :=
  String.mk (s.toList.map pyLowerChar)

/-- Python `str.upper()`. -/
def pyUpper (s : String) : String :=
  String.mk (s.toList.map pyUpperChar)

/-- `str.split()` worker: split a character list on whitespace runs,
accumulating the current (reversed) word. -/
def wordsAux : List Char → List Char → List (List Char)
  | [], [] => []
  | [], acc => [acc.reverse]
  | c :: cs, acc =>
    if c.isWhitespace then
      match acc with
      | [] => wordsAux cs []
      | _ :: _ => acc.reverse :: wordsAux cs []
    else wordsAux cs (c :: acc)

/-- Python `query.split()`: the maximal whitespace-free runs, leading and
trailing whitespace discarded. -/
def pySplit (s : String) : List (List Char) :=
  wordsAux s.toList []

/-- `" ".join(words)` on character lists. -/
def joinWords : List (List Char) → List Char
  | [] => []
  | [w] => w
  | w :: v :: ws => w ++ ' ' :: joinWords (v :: ws)

/-- `" ".join(query.split()).lower()`: the query normalization inside
`generate_cache_key`. -/
def normalizeQuery (query : String) : String :=
  String.mk ((joinWords (pySplit query)).map pyLowerChar)

/-- Python `str.strip()`. -/
def pyStrip (s : String) : String :=
  String.mk (((s.toList.dropWhile Char.isWhitespace).reverse.dropWhile
    Char.isWhitespace).reverse)

/-- `s.startswith(pre)` via character lists. -/
def charsStartWith : List Char → List Char → Bool
  | [], _ => true
  | _ :: _, [] => false
  | a :: as, b :: bs => a = b && charsStartWith as bs

/-- Python `s.startswith(pre)`. -/
def pyStartswith (s pre : String) : Bool :=
  charsStartWith pre.toList s.toList

/-! ### Parameter serialization and the cache key -/

/-- A JSON-serializable SQL value (parameter or result field). -/
inductive SqlValue
  | int (n : Int)
  | text (s : String)
  | null
deriving DecidableEq, Repr

/-- One result row: an ordered record of field name to value, as produced by
`dict(row)` on a `sqlean.Row`. -/
abbrev Row := List (String × SqlValue)

/-- The parameter dictionary of a submission (`params` of `QueryRequest`),
`none` when the field is absent. -/
abbrev Params := Option (List (String × SqlValue))

/-- Rendering of one value inside `json.dumps` (string escaping is irrelevant
to the claims and omitted). -/
def jsonValue : SqlValue → String
  | .int n => toString n
  | .text s => "\x22" ++ s ++ "\x22"
  | .null => "null"

/-- Lexicographic comparison of key strings used by `sort_keys=True`. -/
def strLeB (a b : String) : Bool :=
  a.toList ≤ b.toList

/-- Insertion into a key-sorted parameter list. -/
def insertByKey (p : String × SqlValue) :
    List (String × SqlValue) → List (String × SqlValue)
  | [] => [p]
  | q :: rest => if strLeB p.1 q.1 then p :: q :: rest else q :: insertByKey p rest

/-- Sorting the parameter pairs by key, as `json.dumps(..., sort_keys=True)`. -/
def sortParams (ps : List (String × SqlValue)) : List (String × SqlValue) :=
  ps.foldr insertByKey []

/-- `json.dumps(params, sort_keys=True)` for a non-empty dict. -/
def jsonDumps (ps : List (String × SqlValue)) : String :=
  "\x7b" ++ String.intercalate ", "
    ((sortParams ps).map (fun p => "\x22" ++ p.1 ++ "\x22: " ++ jsonValue p.2))
    ++ "\x7d"

/-- `json.dumps(params, sort_keys=True) if params else ""`: both `None` and
the empty dict are falsy in Python and give the empty string. -/
def paramsStr : Params → String
  | none => ""
  | some [] => ""
  | some (p :: ps) => jsonDumps (p :: ps)

/-- `generate_cache_key(query, params, db_name)` of
`src/services/cache_service.py` (also duplicated in `src/main.py`), modelled
at the md5 pre-image level: the returned key is
`db_name + ":" + " ".join(query.split()).lower() + ":" + params_str`. -/
def generate_cache_key (query : String) (params : Params) (db_name : String) : String :=
  let query_normalized := normalizeQuery query
  let params_str := paramsStr params
  db_name ++ ":" ++ query_normalized ++ ":" ++ params_str

/-! ### The query-result cache (`QueryCache` of `src/services/cache_service.py`) -/

/-- One cache entry, the dict
`{"result": ..., "timestamp": ..., "hits": ..., "last_hit_time": ...}`
stored under a key in `QueryCache.cache`. -/
structure CacheItem where
  result : List Row
  timestamp : Int
  hits : Nat
  last_hit_time : Int
deriving DecidableEq, Repr

/-- The `QueryCache` state: the three parallel structures of the Python class
plus the two configured constants (`settings.MAX_CACHE_SIZE`, default 1000,
and `settings.CACHE_EXPIRY`, default 300). -/
structure QueryCache where
  cache : List (String × CacheItem)
  expiration_times : List (String × Int)
  lru_keys : List String
  max_cache_size : Nat
  default_ttl : Int
deriving DecidableEq, Repr

/-- `QueryCache.__init__` with the configured capacity and default TTL. -/
def initCache (max_cache_size : Nat) (default_ttl : Int) : QueryCache :=
  { cache := [], expiration_times := [], lru_keys := [],
    max_cache_size := max_cache_size, default_ttl := default_ttl }

/-- `QueryCache._remove_item(cache_key)`: delete the key from all three
structures (each deletion guarded by membership in the source). -/
def QueryCache.removeItem (qc : QueryCache) (cache_key : String) : QueryCache :=
  { qc with
    cache := dictDelete qc.cache cache_key,
    expiration_times := dictDelete qc.expiration_times cache_key,
    lru_keys := listRemove qc.lru_keys cache_key }

/-- `QueryCache._remove_lru_item()`: `lru_key = self.lru_keys.pop(0)` followed
by `self._remove_item(lru_key)`; a no-op when `lru_keys` is empty. -/
def QueryCache.removeLruItem (qc : QueryCache) : QueryCache :=
  match qc.lru_keys with
  | [] => qc
  | lru_key :: rest => ({ qc with lru_keys := rest }).removeItem lru_key

/-- `QueryCache.get(cache_key)` at instant `now`, returning
`(result, hit)` and the successor state.  Present and unexpired: bump `hits`
and `last_hit_time`, move the key to the LRU tail, return the payload.
Present but expired: remove the entry, miss.  Absent: miss. -/
def QueryCache.get (qc : QueryCache) (now : Int) (cache_key : String) :
    Option (List Row) × Bool × QueryCache :=
  match dictLookup qc.cache cache_key with
  | none => (none, false, qc)
  | some cache_item =>
    if now < (dictLookup qc.expiration_times cache_key).getD (now + qc.default_ttl) then
      (some cache_item.result, true,
        { qc with
          cache := dictSet qc.cache cache_key
            { cache_item with hits := cache_item.hits + 1, last_hit_time := now },
          lru_keys := listRemove qc.lru_keys cache_key ++ [cache_key] })
    else
      (none, false, qc.removeItem cache_key)

/-- The insertion half of `QueryCache.set`: store the entry and its expiry
`now + (ttl if ttl is not None else self.default_ttl)` and move the key to
the LRU tail (`removeLruItem` never changes `default_ttl`, so reading it
from `qc1` equals reading it from `self`). -/
def QueryCache.insertEntry (qc1 : QueryCache) (now : Int) (cache_key : String)
    (result : List Row) (ttl : Option Int) : QueryCache :=
  { qc1 with
    cache := dictSet qc1.cache cache_key
      { result := result, timestamp := now, hits := 1, last_hit_time := now },
    expiration_times := dictSet qc1.expiration_times cache_key
      (now + (match ttl with | some t => t | none => qc1.default_ttl)),
    lru_keys := listRemove qc1.lru_keys cache_key ++ [cache_key] }

/-- `QueryCache.set(cache_key, result, ttl)` at instant `now`: evict the LRU
head whenever `len(self.cache) >= self.max_cache_size`, then insert or
overwrite the entry and move the key to the LRU tail. -/
def QueryCache.set (qc : QueryCache) (now : Int) (cache_key : String)
    (result : List Row) (ttl : Option Int) : QueryCache :=
  QueryCache.insertEntry
    (if qc.max_cache_size ≤ qc.cache.length then qc.removeLruItem else qc)
    now cache_key result ttl

/-- `QueryCache.cleanup_expired()` at instant `now`: collect the keys whose
recorded expiry satisfies `current_time > v` (strict), remove each, and
return how many keys were collected. -/
def QueryCache.cleanupExpired (qc : QueryCache) (now : Int) : Nat × QueryCache :=
  let expired_keys := (qc.expiration_times.filter (fun p => p.2 < now)).map Prod.fst
  (expired_keys.length, expired_keys.foldl (fun q k => q.removeItem k) qc)

/-- `QueryCache.clear()`. -/
def QueryCache.clear (qc : QueryCache) : QueryCache :=
  { qc with cache := [], expiration_times := [], lru_keys := [] }

/-! ### Asynchronous execution (`execute_query` / `run_query` of `src/main.py`) -/

/-- Outcome of the whole interaction with the external sqlean engine for one
query (connect, `cursor.execute`, `fetchall`/`commit`): the materialized rows
and `cursor.rowcount` on success, or the raised exception's message. -/
inductive EngineOutcome
  | ok (rows : List Row) (rowcount : Int)
  | err (msg : String)
deriving DecidableEq, Repr

/-- One entry of `query_results`: the lifecycle state of a submission.
`completed` carries the result rows, the `cached` flag and the reported
`execution_time`; `error` carries the message and the elapsed duration. -/
inductive TaskState
  | pending
  | completed (result : List Row) (cached : Bool) (execution_time : Int)
  | error (msg : String) (execution_time : Int)
deriving DecidableEq, Repr

/-- What one `execute_query` run produces: the successor cache, the task
written into `query_results[query_id]`, and whether `conn.commit()` ran. -/
structure ExecResult where
  cache : QueryCache
  task : TaskState
  committed : Bool
deriving DecidableEq, Repr

/-- The `try` body of `execute_query`: cache probe, engine call,
read/write classification, cache population.  An `Except.error` is the
exception escaping the body together with the cache state at that point
(cache mutations made before the failure persist). -/
def execute_query_body (engine : EngineOutcome) (query : String) (params : Params)
    (db_name : String) (cache_ttl : Option Int) (force_refresh : Bool)
    (now elapsed : Int) (qc : QueryCache) : Except (String × QueryCache) ExecResult :=
  let cache_key := generate_cache_key query params db_name
  let checked := if force_refresh then (none, false, qc) else qc.get now cache_key
  if checked.2.1 then
    .ok { cache := checked.2.2, task := .completed (checked.1.getD []) true 0,
          committed := false }
  else
    match engine with
    | .err m => .error (m, checked.2.2)
    | .ok rows rowcount =>
      if pyStartswith (pyUpper (pyStrip query)) "SELECT" then
        let results := rows
        let qc2 := if pyStartswith (pyUpper (pyStrip query)) "SELECT SQLITE_"
          then checked.2.2
          else (checked.2.2).set now cache_key results cache_ttl
        .ok { cache := qc2, task := .completed results false elapsed,
              committed := false }
      else
        .ok { cache := checked.2.2,
              task := .completed [[("rows_affected", SqlValue.int rowcount)]] false elapsed,
              committed := true }

/-- `execute_query(query_id, query, params, db_name, cache_ttl, force_refresh)`
run at instant `now` with measured duration `elapsed`: the `try` body wrapped
in the catch-all `except` that records `{"status": "error", "error": str(e),
"execution_time": ...}` and never re-raises. -/
def execute_query (engine : EngineOutcome) (query : String) (params : Params)
    (db_name : String) (cache_ttl : Option Int) (force_refresh : Bool)
    (now elapsed : Int) (qc : QueryCache) : ExecResult :=
  match execute_query_body engine query params db_name cache_ttl force_refresh
      now elapsed qc with
  | .ok r => r
  | .error (m, qc') => { cache := qc', task := .error m elapsed, committed := false }

/-- The module-level mutable state of `src/main.py` touched by the `/query`
endpoints: the shared `query_cache` and the `query_results` dict. -/
structure AppState where
  query_cache : QueryCache
  query_results : List (String × TaskState)
deriving Repr

/-- The `/query` endpoint `run_query`: write `{"status": "pending"}` under the
fresh id, then `await loop.run_in_executor(executor, execute_query, ...)` —
the `await` means the handler resumes only after `execute_query` has returned
— and finally respond with `query_results[query_id]`. -/
def run_query (engine : EngineOutcome) (query : String) (params : Params)
    (db_name : String) (cache_ttl : Option Int) (force_refresh : Bool)
    (now elapsed : Int) (query_id : String) (st : AppState) : AppState × TaskState :=
  let st1 := { st with query_results := dictSet st.query_results query_id .pending }
  let r := execute_query engine query params db_name cache_ttl force_refresh
    now elapsed st1.query_cache
  let st2 : AppState :=
    { query_cache := r.cache,
      query_results := dictSet st1.query_results query_id r.task }
  (st2, (dictLookup st2.query_results query_id).getD .pending)

/-- The `/query/{query_id}` endpoint `get_query_status`: `none` models the
404 branch. -/
def get_query_status (query_id : String) (st : AppState) : Option TaskState :=
  dictLookup st.query_results query_id

/-! ### Association-list lemmas -/

theorem dictDelete_cons {α : Type} (k' : String) (w : α) (rest : List (String × α))
    (k : String) :
    dictDelete ((k', w) :: rest) k =
      if k' = k then dictDelete rest k else (k', w) :: dictDelete rest k := by
  by_cases h : k' = k <;> simp [dictDelete, List.filter_cons, h]

theorem dictLookup_dictSet {α : Type} (d : List (String × α)) (k x : String) (v : α) :
    dictLookup (dictSet d k v) x = if x = k then some v else dictLookup d x := by
  induction d with
  | nil =>
    by_cases h : x = k
    · subst h
      simp [dictSet, dictLookup]
    · simp [dictSet, dictLookup, h, Ne.symm h]
  | cons p rest ih =>
    obtain ⟨k', w⟩ := p
    by_cases h1 : k' = k
    · subst h1
      by_cases h2 : x = k'
      · subst h2
        simp [dictSet, dictLookup]
      · simp [dictSet, dictLookup, h2, Ne.symm h2]
    · simp only [dictSet, if_neg h1, dictLookup]
      rw [ih]
      by_cases h2 : k' = x
      · subst h2
        simp [h1, Ne.symm h1]
      · simp [h2]

theorem dictLookup_dictDelete {α : Type} (d : List (String × α)) (k x : String) :
    dictLookup (dictDelete d k) x = if x = k then none else dictLookup d x := by
  induction d with
  | nil => simp [dictDelete, dictLookup]
  | cons p rest ih =>
    obtain ⟨k', w⟩ := p
    rw [dictDelete_cons]
    by_cases h1 : k' = k
    · rw [if_pos h1]
      subst h1
      rw [ih]
      by_cases h2 : x = k'
      · simp [h2]
      · simp [dictLookup, h2, Ne.symm h2]
    · rw [if_neg h1]
      simp only [dictLookup]
      rw [ih]
      by_cases h2 : k' = x
      · subst h2
        simp [h1, Ne.symm h1]
      · by_cases h3 : x = k <;> simp [h1, h2, h3]

theorem dictContains_iff_mem {α : Type} (d : List (String × α)) (k : String) :
    dictContains d k = true ↔ k ∈ dictKeys d := by
  induction d with
  | nil => simp [dictContains, dictLookup, dictKeys]
  | cons p rest ih =>
    obtain ⟨k', w⟩ := p
    by_cases h : k' = k
    · subst h
      simp [dictContains, dictLookup, dictKeys]
    · simp only [dictContains, dictLookup, if_neg h, dictKeys, List.map_cons,
        List.mem_cons] at ih ⊢
      rw [ih]
      constructor
      · exact Or.inr
      · rintro (h' | h')
        · exact (h h'.symm).elim
        · exact h'

theorem dictKeys_dictDelete {α : Type} (d : List (String × α)) (k : String) :
    dictKeys (dictDelete d k) = (dictKeys d).filter (fun x => x ≠ k) := by
  induction d with
  | nil => rfl
  | cons p rest ih =>
    obtain ⟨k', w⟩ := p
    rw [dictDelete_cons]
    by_cases h : k' = k
    · rw [if_pos h, ih]
      subst h
      simp only [dictKeys, List.map_cons, List.filter_cons]
      simp
    · rw [if_neg h]
      simp only [dictKeys, List.map_cons] at ih ⊢
      rw [ih]
      simp [List.filter_cons, h]

theorem mem_dictKeys_dictSet {α : Type} (d : List (String × α)) (k x : String) (v : α) :
    x ∈ dictKeys (dictSet d k v) ↔ x ∈ dictKeys d ∨ x = k := by
  induction d with
  | nil => simp [dictSet, dictKeys]
  | cons p rest ih =>
    obtain ⟨k', w⟩ := p
    by_cases h : k' = k
    · subst h
      simp [dictSet, dictKeys]
      tauto
    · simp only [dictSet, if_neg h, dictKeys, List.map_cons, List.mem_cons] at ih ⊢
      rw [ih]
      tauto

theorem nodup_dictKeys_dictSet {α : Type} (d : List (String × α)) (k : String) (v : α)
    (h : (dictKeys d).Nodup) : (dictKeys (dictSet d k v)).Nodup := by
  induction d with
  | nil => simp [dictSet, dictKeys]
  | cons p rest ih =>
    obtain ⟨k', w⟩ := p
    simp only [dictKeys, List.map_cons, List.nodup_cons] at h
    by_cases hk : k' = k
    · subst hk
      have hset : dictSet ((k', w) :: rest) k' v = (k', v) :: rest := by
        simp [dictSet]
      rw [hset]
      simp only [dictKeys, List.map_cons, List.nodup_cons]
      exact h
    · simp only [dictSet, if_neg hk, dictKeys, List.map_cons, List.nodup_cons]
      refine ⟨?_, ih h.2⟩
      intro hmem
      rcases (mem_dictKeys_dictSet rest k k' v).1 hmem with h' | h'
      · exact h.1 h'
      · exact hk h'

theorem length_dictSet {α : Type} (d : List (String × α)) (k : String) (v : α) :
    (dictSet d k v).length =
      if dictContains d k then d.length else d.length + 1 := by
  induction d with
  | nil => simp [dictSet, dictContains, dictLookup]
  | cons p rest ih =>
    obtain ⟨k', w⟩ := p
    by_cases h : k' = k
    · subst h
      simp [dictSet, dictContains, dictLookup]
    · simp only [dictSet, if_neg h, dictContains, dictLookup, if_neg h,
        List.length_cons]
      simp only [dictContains] at ih
      rw [ih]
      by_cases hc : (dictLookup rest k).isSome = true <;> simp [hc]

theorem length_dictDelete_le {α : Type} (d : List (String × α)) (k : String) :
    (dictDelete d k).length ≤ d.length :=
  List.length_filter_le _ d

theorem length_filter_ne_of_mem (l : List String) (x : String) (hnd : l.Nodup)
    (hx : x ∈ l) : (l.filter (fun y => y ≠ x)).length + 1 = l.length := by
  induction l with
  | nil => simp at hx
  | cons z rest ih =>
    simp only [List.nodup_cons] at hnd
    by_cases h : z = x
    · subst h
      have hrest : rest.filter (fun y => y ≠ z) = rest := by
        apply List.filter_eq_self.2
        intro y hy
        simp only [ne_eq, decide_eq_true_eq]
        intro hbad
        rw [hbad] at hy
        exact hnd.1 hy
      rw [List.filter_cons]
      have hcond : ¬((fun y => decide (y ≠ z)) z = true) := by simp
      rw [if_neg hcond, hrest]
      simp
    · have hx' : x ∈ rest := by
        rcases List.mem_cons.1 hx with h' | h'
        · exact (h h'.symm).elim
        · exact h'
      have ih' := ih hnd.2 hx'
      rw [List.filter_cons]
      have hcond : (fun y => decide (y ≠ x)) z = true := by simp [h]
      rw [if_pos hcond]
      simp only [List.length_cons]
      omega

theorem length_dictDelete_of_mem {α : Type} (d : List (String × α)) (k : String)
    (hnd : (dictKeys d).Nodup) (hmem : k ∈ dictKeys d) :
    (dictDelete d k).length + 1 = d.length := by
  have h1 : (dictDelete d k).length = (dictKeys (dictDelete d k)).length := by
    simp [dictKeys]
  have h2 : d.length = (dictKeys d).length := by simp [dictKeys]
  rw [h1, h2, dictKeys_dictDelete]
  exact length_filter_ne_of_mem (dictKeys d) k hnd hmem

theorem dictLookup_eq_some_of_mem {α : Type} (d : List (String × α)) (k : String)
    (v : α) (hnd : (dictKeys d).Nodup) (hmem : (k, v) ∈ d) :
    dictLookup d k = some v := by
  induction d with
  | nil => simp at hmem
  | cons p rest ih =>
    obtain ⟨k', w⟩ := p
    simp only [dictKeys, List.map_cons, List.nodup_cons] at hnd
    rcases List.mem_cons.1 hmem with h | h
    · rw [Prod.mk.injEq] at h
      obtain ⟨h1, h2⟩ := h
      subst h1
      subst h2
      simp [dictLookup]
    · have hne : k' ≠ k := by
        intro hbad
        apply hnd.1
        rw [hbad]
        exact List.mem_map_of_mem Prod.fst h
      simp [dictLookup, hne, ih hnd.2 h]

theorem mem_of_dictLookup_eq_some {α : Type} (d : List (String × α)) (k : String)
    (v : α) (h : dictLookup d k = some v) : (k, v) ∈ d := by
  induction d with
  | nil => simp [dictLookup] at h
  | cons p rest ih =>
    obtain ⟨k', w⟩ := p
    by_cases hk : k' = k
    · subst hk
      simp [dictLookup] at h
      rw [h]
      exact List.mem_cons_self _ _
    · simp only [dictLookup, if_neg hk] at h
      exact List.mem_cons_of_mem _ (ih h)

/-! ### `listRemove` lemmas -/

theorem listRemove_sublist (l : List String) (x : String) :
    (listRemove l x).Sublist l := by
  induction l with
  | nil => simp [listRemove]
  | cons y rest ih =>
    by_cases h : y = x
    · simp [listRemove, h]
    · simpa [listRemove, h] using ih.cons₂ y

theorem nodup_listRemove (l : List String) (x : String) (h : l.Nodup) :
    (listRemove l x).Nodup :=
  h.sublist (listRemove_sublist l x)

theorem listRemove_eq_of_not_mem (l : List String) (x : String) (h : x ∉ l) :
    listRemove l x = l := by
  induction l with
  | nil => rfl
  | cons y rest ih =>
    simp only [List.mem_cons, not_or] at h
    have hyx : y ≠ x := by
      intro hbad
      exact h.1 hbad.symm
    simp [listRemove, hyx, ih h.2]

theorem mem_listRemove_iff (l : List String) (x y : String) (hnd : l.Nodup) :
    y ∈ listRemove l x ↔ y ∈ l ∧ y ≠ x := by
  induction l with
  | nil => simp [listRemove]
  | cons z rest ih =>
    simp only [List.nodup_cons] at hnd
    by_cases h : z = x
    · subst h
      simp only [listRemove, if_pos rfl, List.mem_cons]
      constructor
      · intro hy
        refine ⟨Or.inr hy, ?_⟩
        intro hbad
        rw [hbad] at hy
        exact hnd.1 hy
      · rintro ⟨hy | hy, hne⟩
        · exact (hne hy).elim
        · exact hy
    · simp only [listRemove, if_neg h, List.mem_cons, ih hnd.2]
      constructor
      · rintro (hy | ⟨hy, hne⟩)
        · refine ⟨Or.inl hy, ?_⟩
          subst hy
          exact h
        · exact ⟨Or.inr hy, hne⟩
      · rintro ⟨hy | hy, hne⟩
        · exact Or.inl hy
        · exact Or.inr ⟨hy, hne⟩

theorem length_listRemove_of_mem (l : List String) (x : String) (h : x ∈ l) :
    (listRemove l x).length + 1 = l.length := by
  induction l with
  | nil => simp at h
  | cons y rest ih =>
    by_cases hy : y = x
    · simp [listRemove, hy]
    · have h' : x ∈ rest := by
        rcases List.mem_cons.1 h with h'' | h''
        · exact (hy h''.symm).elim
        · exact h''
      simp [listRemove, hy, ih h']

/-! ### Well-formed cache states

The three structures of a `QueryCache` stay synchronized: every operation
inserts into or deletes from all of them together, so on every reachable
state the key sets coincide and are duplicate-free (Python dicts cannot hold
duplicate keys; `lru_keys` holds one position per live key). -/

/-- The synchronization invariant of a `QueryCache` state. -/
def WF (qc : QueryCache) : Prop :=
  (dictKeys qc.cache).Nodup ∧ (dictKeys qc.expiration_times).Nodup ∧
  qc.lru_keys.Nodup ∧
  (∀ k ∈ dictKeys qc.cache, k ∈ dictKeys qc.expiration_times) ∧
  (∀ k ∈ dictKeys qc.expiration_times, k ∈ dictKeys qc.cache) ∧
  (∀ k ∈ dictKeys qc.cache, k ∈ qc.lru_keys) ∧
  (∀ k ∈ qc.lru_keys, k ∈ dictKeys qc.cache)

instance (qc : QueryCache) : Decidable (WF qc) := by
  unfold WF
  infer_instance

theorem WF_initCache (max_cache_size : Nat) (default_ttl : Int) :
    WF (initCache max_cache_size default_ttl) := by
  refine ⟨?_, ?_, ?_, ?_, ?_, ?_, ?_⟩ <;> simp [initCache, dictKeys]

theorem WF_removeItem (qc : QueryCache) (key : String) (h : WF qc) :
    WF (qc.removeItem key) := by
  obtain ⟨h1, h2, h3, h4, h5, h6, h7⟩ := h
  refine ⟨?_, ?_, ?_, ?_, ?_, ?_, ?_⟩
  · rw [QueryCache.removeItem]
    simp only [dictKeys_dictDelete]
    exact h1.filter _
  · rw [QueryCache.removeItem]
    simp only [dictKeys_dictDelete]
    exact h2.filter _
  · exact nodup_listRemove _ _ h3
  · intro k hk
    simp only [QueryCache.removeItem, dictKeys_dictDelete, List.mem_filter,
      ne_eq, decide_eq_true_eq] at hk ⊢
    exact ⟨h4 k hk.1, hk.2⟩
  · intro k hk
    simp only [QueryCache.removeItem, dictKeys_dictDelete, List.mem_filter,
      ne_eq, decide_eq_true_eq] at hk ⊢
    exact ⟨h5 k hk.1, hk.2⟩
  · intro k hk
    simp only [QueryCache.removeItem, dictKeys_dictDelete, List.mem_filter,
      ne_eq, decide_eq_true_eq] at hk
    rw [QueryCache.removeItem]
    simp only [mem_listRemove_iff _ _ _ h3]
    exact ⟨h6 k hk.1, hk.2⟩
  · intro k hk
    simp only [QueryCache.removeItem, mem_listRemove_iff _ _ _ h3] at hk
    simp only [QueryCache.removeItem, dictKeys_dictDelete, List.mem_filter,
      ne_eq, decide_eq_true_eq]
    exact ⟨h7 k hk.1, hk.2⟩

theorem WF_removeLruItem (qc : QueryCache) (h : WF qc) :
    WF qc.removeLruItem := by
  rw [QueryCache.removeLruItem]
  obtain ⟨h1, h2, h3, h4, h5, h6, h7⟩ := h
  cases hl : qc.lru_keys with
  | nil => exact ⟨h1, h2, h3, h4, h5, h6, h7⟩
  | cons lru_key rest =>
    have h3' : (lru_key :: rest).Nodup := hl ▸ h3
    have hrest : rest.Nodup := (List.nodup_cons.1 h3').2
    have hnotmem : lru_key ∉ rest := (List.nodup_cons.1 h3').1
    have hremove : listRemove rest lru_key = rest :=
      listRemove_eq_of_not_mem rest lru_key hnotmem
    refine ⟨?_, ?_, ?_, ?_, ?_, ?_, ?_⟩
    · simp only [QueryCache.removeItem, dictKeys_dictDelete]
      exact h1.filter _
    · simp only [QueryCache.removeItem, dictKeys_dictDelete]
      exact h2.filter _
    · simp only [QueryCache.removeItem, hremove]
      exact hrest
    · intro k hk
      simp only [QueryCache.removeItem, dictKeys_dictDelete, List.mem_filter,
        ne_eq, decide_eq_true_eq] at hk ⊢
      exact ⟨h4 k hk.1, hk.2⟩
    · intro k hk
      simp only [QueryCache.removeItem, dictKeys_dictDelete, List.mem_filter,
        ne_eq, decide_eq_true_eq] at hk ⊢
      exact ⟨h5 k hk.1, hk.2⟩
    · intro k hk
      simp only [QueryCache.removeItem, dictKeys_dictDelete, List.mem_filter,
        ne_eq, decide_eq_true_eq] at hk
      simp only [QueryCache.removeItem, hremove]
      have := h6 k hk.1
      rw [hl] at this
      rcases List.mem_cons.1 this with h' | h'
      · exact (hk.2 h').elim
      · exact h'
    · intro k hk
      simp only [QueryCache.removeItem, hremove] at hk
      simp only [QueryCache.removeItem, dictKeys_dictDelete, List.mem_filter,
        ne_eq, decide_eq_true_eq]
      refine ⟨h7 k ?_, ?_⟩
      · rw [hl]
        exact List.mem_cons_of_mem _ hk
      · intro hbad
        rw [hbad] at hk
        exact hnotmem hk

theorem mem_listRemove_append_iff (l : List String) (x y : String) (hnd : l.Nodup) :
    y ∈ listRemove l x ++ [x] ↔ y ∈ l ∨ y = x := by
  rw [List.mem_append, mem_listRemove_iff l x y hnd]
  simp only [List.mem_singleton]
  by_cases h : y = x
  · simp [h]
  · simp [h]

theorem nodup_listRemove_append (l : List String) (x : String) (hnd : l.Nodup) :
    (listRemove l x ++ [x]).Nodup := by
  apply List.Nodup.append (nodup_listRemove l x hnd) (List.nodup_singleton x)
  intro a ha hb
  rw [List.mem_singleton] at hb
  subst hb
  exact ((mem_listRemove_iff l a a hnd).1 ha).2 rfl

theorem get_miss (qc : QueryCache) (now : Int) (cache_key : String)
    (h : dictLookup qc.cache cache_key = none) :
    qc.get now cache_key = (none, false, qc) := by
  simp [QueryCache.get, h]

theorem get_hit (qc : QueryCache) (now : Int) (cache_key : String)
    (cache_item : CacheItem)
    (h : dictLookup qc.cache cache_key = some cache_item)
    (hexp : now < (dictLookup qc.expiration_times cache_key).getD
      (now + qc.default_ttl)) :
    qc.get now cache_key = (some cache_item.result, true,
      { qc with
        cache := dictSet qc.cache cache_key
          { cache_item with hits := cache_item.hits + 1, last_hit_time := now },
        lru_keys := listRemove qc.lru_keys cache_key ++ [cache_key] }) := by
  simp [QueryCache.get, h, hexp]

theorem get_expired (qc : QueryCache) (now : Int) (cache_key : String)
    (cache_item : CacheItem)
    (h : dictLookup qc.cache cache_key = some cache_item)
    (hexp : ¬ now < (dictLookup qc.expiration_times cache_key).getD
      (now + qc.default_ttl)) :
    qc.get now cache_key = (none, false, qc.removeItem cache_key) := by
  simp [QueryCache.get, h, hexp]

theorem WF_get (qc : QueryCache) (now : Int) (cache_key : String) (h : WF qc) :
    WF (qc.get now cache_key).2.2 := by
  obtain ⟨h1, h2, h3, h4, h5, h6, h7⟩ := h
  cases hlook : dictLookup qc.cache cache_key with
  | none =>
    rw [get_miss qc now cache_key hlook]
    exact ⟨h1, h2, h3, h4, h5, h6, h7⟩
  | some cache_item =>
    have hmem : cache_key ∈ dictKeys qc.cache := by
      rw [← dictContains_iff_mem]
      simp [dictContains, hlook]
    by_cases hexp :
        now < (dictLookup qc.expiration_times cache_key).getD (now + qc.default_ttl)
    · rw [get_hit qc now cache_key cache_item hlook hexp]
      refine ⟨?_, h2, ?_, ?_, ?_, ?_, ?_⟩
      · exact nodup_dictKeys_dictSet _ _ _ h1
      · exact nodup_listRemove_append _ _ h3
      · intro k hk
        rcases (mem_dictKeys_dictSet _ _ _ _).1 hk with h' | h'
        · exact h4 k h'
        · subst h'
          exact h4 k hmem
      · intro k hk
        rw [mem_dictKeys_dictSet]
        exact Or.inl (h5 k hk)
      · intro k hk
        rw [mem_listRemove_append_iff _ _ _ h3]
        rcases (mem_dictKeys_dictSet _ _ _ _).1 hk with h' | h'
        · exact Or.inl (h6 k h')
        · exact Or.inr h'
      · intro k hk
        rw [mem_dictKeys_dictSet]
        rcases (mem_listRemove_append_iff _ _ _ h3).1 hk with h' | h'
        · exact Or.inl (h7 k h')
        · exact Or.inr h'
    · rw [get_expired qc now cache_key cache_item hlook hexp]
      exact WF_removeItem qc cache_key ⟨h1, h2, h3, h4, h5, h6, h7⟩

theorem WF_insertEntry (qc1 : QueryCache) (now : Int) (cache_key : String)
    (result : List Row) (ttl : Option Int) (h : WF qc1) :
    WF (qc1.insertEntry now cache_key result ttl) := by
  obtain ⟨h1, h2, h3, h4, h5, h6, h7⟩ := h
  refine ⟨?_, ?_, ?_, ?_, ?_, ?_, ?_⟩
  · exact nodup_dictKeys_dictSet _ _ _ h1
  · exact nodup_dictKeys_dictSet _ _ _ h2
  · exact nodup_listRemove_append _ _ h3
  · intro k hk
    simp only [QueryCache.insertEntry] at hk ⊢
    rw [mem_dictKeys_dictSet]
    rcases (mem_dictKeys_dictSet _ _ _ _).1 hk with h' | h'
    · exact Or.inl (h4 k h')
    · exact Or.inr h'
  · intro k hk
    simp only [QueryCache.insertEntry] at hk ⊢
    rw [mem_dictKeys_dictSet]
    rcases (mem_dictKeys_dictSet _ _ _ _).1 hk with h' | h'
    · exact Or.inl (h5 k h')
    · exact Or.inr h'
  · intro k hk
    simp only [QueryCache.insertEntry] at hk ⊢
    rw [mem_listRemove_append_iff _ _ _ h3]
    rcases (mem_dictKeys_dictSet _ _ _ _).1 hk with h' | h'
    · exact Or.inl (h6 k h')
    · exact Or.inr h'
  · intro k hk
    simp only [QueryCache.insertEntry] at hk ⊢
    rw [mem_dictKeys_dictSet]
    rcases (mem_listRemove_append_iff _ _ _ h3).1 hk with h' | h'
    · exact Or.inl (h7 k h')
    · exact Or.inr h'

theorem WF_set (qc : QueryCache) (now : Int) (cache_key : String)
    (result : List Row) (ttl : Option Int) (h : WF qc) :
    WF (qc.set now cache_key result ttl) := by
  rw [QueryCache.set]
  apply WF_insertEntry
  by_cases hc : qc.max_cache_size ≤ qc.cache.length
  · rw [if_pos hc]
    exact WF_removeLruItem qc h
  · rw [if_neg hc]
    exact h

theorem WF_foldl_removeItem (l : List String) (qc : QueryCache) (h : WF qc) :
    WF (l.foldl (fun q k => q.removeItem k) qc) := by
  induction l generalizing qc with
  | nil => exact h
  | cons x rest ih =>
    exact ih (qc.removeItem x) (WF_removeItem qc x h)

theorem WF_cleanupExpired (qc : QueryCache) (now : Int) (h : WF qc) :
    WF (qc.cleanupExpired now).2 :=
  WF_foldl_removeItem _ qc h

theorem WF_clear (qc : QueryCache) : WF qc.clear := by
  refine ⟨?_, ?_, ?_, ?_, ?_, ?_, ?_⟩ <;> simp [QueryCache.clear, dictKeys]

/-! ### Capacity accounting -/

theorem removeLruItem_eq_nil (qc : QueryCache) (hl : qc.lru_keys = []) :
    qc.removeLruItem = qc := by
  simp [QueryCache.removeLruItem, hl]

theorem removeLruItem_eq_cons (qc : QueryCache) (hd : String) (rest : List String)
    (hl : qc.lru_keys = hd :: rest) :
    qc.removeLruItem = ({ qc with lru_keys := rest }).removeItem hd := by
  simp [QueryCache.removeLruItem, hl]

theorem lru_keys_ne_nil (qc : QueryCache) (hwf : WF qc) (hc : qc.cache ≠ []) :
    qc.lru_keys ≠ [] := by
  obtain ⟨p, rest, hp⟩ : ∃ p rest, qc.cache = p :: rest := by
    cases h : qc.cache with
    | nil => exact (hc h).elim
    | cons p rest => exact ⟨p, rest, rfl⟩
  have hmem : p.1 ∈ dictKeys qc.cache := by
    rw [hp, dictKeys, List.map_cons]
    exact List.mem_cons_self _ _
  have := hwf.2.2.2.2.2.1 p.1 hmem
  intro hbad
  rw [hbad] at this
  simp at this

theorem length_cache_removeLruItem_full (qc : QueryCache) (hwf : WF qc)
    (hne : qc.cache.length ≠ 0) :
    qc.removeLruItem.cache.length + 1 = qc.cache.length := by
  have hc : qc.cache ≠ [] := by
    intro hbad
    rw [hbad] at hne
    simp at hne
  obtain ⟨hd, rest, hl⟩ : ∃ hd rest, qc.lru_keys = hd :: rest := by
    cases h : qc.lru_keys with
    | nil => exact (lru_keys_ne_nil qc hwf hc h).elim
    | cons hd rest => exact ⟨hd, rest, rfl⟩
  rw [removeLruItem_eq_cons qc hd rest hl]
  have hmem : hd ∈ dictKeys qc.cache := by
    apply hwf.2.2.2.2.2.2 hd
    rw [hl]
    exact List.mem_cons_self _ _
  exact length_dictDelete_of_mem qc.cache hd hwf.1 hmem

theorem length_cache_set_le (qc : QueryCache) (now : Int) (cache_key : String)
    (result : List Row) (ttl : Option Int) (hwf : WF qc)
    (hmax : 1 ≤ qc.max_cache_size) (hlen : qc.cache.length ≤ qc.max_cache_size) :
    (qc.set now cache_key result ttl).cache.length ≤ qc.max_cache_size := by
  rw [QueryCache.set]
  by_cases hc : qc.max_cache_size ≤ qc.cache.length
  · rw [if_pos hc]
    have hfull : qc.cache.length = qc.max_cache_size := le_antisymm hlen hc
    have hne : qc.cache.length ≠ 0 := by omega
    have hdec := length_cache_removeLruItem_full qc hwf hne
    have hset := length_dictSet qc.removeLruItem.cache cache_key
      { result := result, timestamp := now, hits := 1, last_hit_time := now }
    simp only [QueryCache.insertEntry]
    by_cases hcont : dictContains qc.removeLruItem.cache cache_key = true
    · simp only [hcont, if_pos] at hset
      simp only [hset]
      omega
    · rw [Bool.not_eq_true] at hcont
      simp only [hcont, Bool.false_eq_true, if_neg, if_false] at hset
      simp only [hset]
      omega
  · rw [if_neg hc]
    have hset := length_dictSet qc.cache cache_key
      { result := result, timestamp := now, hits := 1, last_hit_time := now }
    simp only [QueryCache.insertEntry]
    by_cases hcont : dictContains qc.cache cache_key = true
    · simp only [hcont, if_pos] at hset
      simp only [hset]
      omega
    · rw [Bool.not_eq_true] at hcont
      simp only [hcont, Bool.false_eq_true, if_neg, if_false] at hset
      simp only [hset]
      omega

theorem length_cache_removeItem_le (qc : QueryCache) (k : String) :
    (qc.removeItem k).cache.length ≤ qc.cache.length :=
  length_dictDelete_le qc.cache k

theorem length_cache_get_le (qc : QueryCache) (now : Int) (cache_key : String) :
    ((qc.get now cache_key).2.2).cache.length ≤ qc.cache.length := by
  cases hlook : dictLookup qc.cache cache_key with
  | none =>
    rw [get_miss qc now cache_key hlook]
  | some cache_item =>
    by_cases hexp :
        now < (dictLookup qc.expiration_times cache_key).getD (now + qc.default_ttl)
    · rw [get_hit qc now cache_key cache_item hlook hexp]
      have hcont : dictContains qc.cache cache_key = true := by
        simp [dictContains, hlook]
      have hset := length_dictSet qc.cache cache_key
        { cache_item with hits := cache_item.hits + 1, last_hit_time := now }
      simp only [hcont, if_pos] at hset
      simp [hset]
    · rw [get_expired qc now cache_key cache_item hlook hexp]
      exact length_cache_removeItem_le qc cache_key

theorem length_cache_foldl_removeItem_le (l : List String) (qc : QueryCache) :
    ((l.foldl (fun q k => q.removeItem k) qc).cache).length ≤ qc.cache.length := by
  induction l generalizing qc with
  | nil => exact le_refl _
  | cons x rest ih =>
    exact le_trans (ih (qc.removeItem x)) (length_cache_removeItem_le qc x)

theorem length_cache_cleanupExpired_le (qc : QueryCache) (now : Int) :
    ((qc.cleanupExpired now).2.cache).length ≤ qc.cache.length :=
  length_cache_foldl_removeItem_le _ qc

/-! ### Operation sequences on the cache -/

/-- One externally invokable cache operation, with the instant at which it
runs. -/
inductive CacheOp
  | get (now : Int) (cache_key : String)
  | set (now : Int) (cache_key : String) (result : List Row) (ttl : Option Int)
  | cleanup (now : Int)
  | clear
deriving Repr

/-- Application of one operation to a cache state (the returned payloads and
counts are irrelevant to state evolution). -/
def applyOp (qc : QueryCache) : CacheOp → QueryCache
  | .get now cache_key => (qc.get now cache_key).2.2
  | .set now cache_key result ttl => qc.set now cache_key result ttl
  | .cleanup now => (qc.cleanupExpired now).2
  | .clear => qc.clear

/-- Running a sequence of cache operations left to right. -/
def runOps (qc : QueryCache) (ops : List CacheOp) : QueryCache :=
  ops.foldl applyOp qc

theorem max_cache_size_removeItem (qc : QueryCache) (k : String) :
    (qc.removeItem k).max_cache_size = qc.max_cache_size := rfl

theorem max_cache_size_removeLruItem (qc : QueryCache) :
    qc.removeLruItem.max_cache_size = qc.max_cache_size := by
  cases hl : qc.lru_keys with
  | nil => rw [removeLruItem_eq_nil qc hl]
  | cons hd rest =>
    rw [removeLruItem_eq_cons qc hd rest hl]
    rfl

theorem max_cache_size_foldl_removeItem (l : List String) (qc : QueryCache) :
    (l.foldl (fun q k => q.removeItem k) qc).max_cache_size = qc.max_cache_size := by
  induction l generalizing qc with
  | nil => rfl
  | cons x rest ih => exact ih (qc.removeItem x)

theorem max_cache_size_applyOp (qc : QueryCache) (op : CacheOp) :
    (applyOp qc op).max_cache_size = qc.max_cache_size := by
  cases op with
  | get now cache_key =>
    show ((qc.get now cache_key).2.2).max_cache_size = _
    cases hlook : dictLookup qc.cache cache_key with
    | none => rw [get_miss qc now cache_key hlook]
    | some cache_item =>
      by_cases hexp :
          now < (dictLookup qc.expiration_times cache_key).getD (now + qc.default_ttl)
      · rw [get_hit qc now cache_key cache_item hlook hexp]
      · rw [get_expired qc now cache_key cache_item hlook hexp]
        rfl
  | set now cache_key result ttl =>
    show (qc.set now cache_key result ttl).max_cache_size = _
    rw [QueryCache.set]
    simp only [QueryCache.insertEntry]
    by_cases hc : qc.max_cache_size ≤ qc.cache.length
    · rw [if_pos hc]
      exact max_cache_size_removeLruItem qc
    · rw [if_neg hc]
  | cleanup now => exact max_cache_size_foldl_removeItem _ qc
  | clear => rfl

theorem WF_applyOp (qc : QueryCache) (op : CacheOp) (h : WF qc) :
    WF (applyOp qc op) := by
  cases op with
  | get now cache_key => exact WF_get qc now cache_key h
  | set now cache_key result ttl => exact WF_set qc now cache_key result ttl h
  | cleanup now => exact WF_cleanupExpired qc now h
  | clear => exact WF_clear qc

theorem length_le_max_applyOp (qc : QueryCache) (op : CacheOp) (hwf : WF qc)
    (hmax : 1 ≤ qc.max_cache_size) (hlen : qc.cache.length ≤ qc.max_cache_size) :
    (applyOp qc op).cache.length ≤ (applyOp qc op).max_cache_size := by
  rw [max_cache_size_applyOp]
  cases op with
  | get now cache_key => exact le_trans (length_cache_get_le qc now cache_key) hlen
  | set now cache_key result ttl =>
    exact length_cache_set_le qc now cache_key result ttl hwf hmax hlen
  | cleanup now => exact le_trans (length_cache_cleanupExpired_le qc now) hlen
  | clear =>
    show ([] : List (String × CacheItem)).length ≤ _
    simp

theorem invariant_runOps (ops : List CacheOp) (qc : QueryCache) (hwf : WF qc)
    (hmax : 1 ≤ qc.max_cache_size) (hlen : qc.cache.length ≤ qc.max_cache_size) :
    WF (runOps qc ops) ∧ 1 ≤ (runOps qc ops).max_cache_size ∧
      (runOps qc ops).cache.length ≤ (runOps qc ops).max_cache_size := by
  induction ops generalizing qc with
  | nil => exact ⟨hwf, hmax, hlen⟩
  | cons op rest ih =>
    have h1 := WF_applyOp qc op hwf
    have h2 : 1 ≤ (applyOp qc op).max_cache_size := by
      rw [max_cache_size_applyOp]
      exact hmax
    have h3 := length_le_max_applyOp qc op hwf hmax hlen
    exact ih (applyOp qc op) h1 h2 h3

/-! ### Cleanup accounting -/

theorem removeItem_cache_eq (qc : QueryCache) (x : String) :
    (qc.removeItem x).cache = dictDelete qc.cache x := rfl

theorem removeItem_exp_eq (qc : QueryCache) (x : String) :
    (qc.removeItem x).expiration_times = dictDelete qc.expiration_times x := rfl

theorem foldl_removeItem_cache_lookup (l : List String) (qc : QueryCache) (k : String) :
    dictLookup ((l.foldl (fun q x => q.removeItem x) qc).cache) k =
      if k ∈ l then none else dictLookup qc.cache k := by
  induction l generalizing qc with
  | nil => simp
  | cons x rest ih =>
    rw [List.foldl_cons, ih]
    by_cases hk : k ∈ rest
    · simp [hk]
    · rw [if_neg hk, removeItem_cache_eq, dictLookup_dictDelete]
      by_cases hx : k = x
      · simp [hx]
      · simp [hx, hk, List.mem_cons]

theorem foldl_removeItem_exp_lookup (l : List String) (qc : QueryCache) (k : String) :
    dictLookup ((l.foldl (fun q x => q.removeItem x) qc).expiration_times) k =
      if k ∈ l then none else dictLookup qc.expiration_times k := by
  induction l generalizing qc with
  | nil => simp
  | cons x rest ih =>
    rw [List.foldl_cons, ih]
    by_cases hk : k ∈ rest
    · simp [hk]
    · rw [if_neg hk, removeItem_exp_eq, dictLookup_dictDelete]
      by_cases hx : k = x
      · simp [hx]
      · simp [hx, hk, List.mem_cons]

theorem foldl_removeItem_cache_length (l : List String) (qc : QueryCache)
    (hnd : l.Nodup) (hndk : (dictKeys qc.cache).Nodup)
    (hmem : ∀ k ∈ l, k ∈ dictKeys qc.cache) :
    ((l.foldl (fun q x => q.removeItem x) qc).cache).length + l.length =
      qc.cache.length := by
  induction l generalizing qc with
  | nil => simp
  | cons x rest ih =>
    rw [List.foldl_cons]
    have hx : x ∈ dictKeys qc.cache := hmem x (List.mem_cons_self _ _)
    have hdel : (qc.removeItem x).cache.length + 1 = qc.cache.length := by
      rw [removeItem_cache_eq]
      exact length_dictDelete_of_mem qc.cache x hndk hx
    have hndk' : (dictKeys (qc.removeItem x).cache).Nodup := by
      rw [removeItem_cache_eq, dictKeys_dictDelete]
      exact hndk.filter _
    have hmem' : ∀ k ∈ rest, k ∈ dictKeys (qc.removeItem x).cache := by
      intro k hk
      rw [removeItem_cache_eq, dictKeys_dictDelete, List.mem_filter]
      refine ⟨hmem k (List.mem_cons_of_mem _ hk), ?_⟩
      simp only [ne_eq, decide_eq_true_eq]
      intro hbad
      rw [hbad] at hk
      exact (List.nodup_cons.1 hnd).1 hk
    have := ih (qc.removeItem x) (List.nodup_cons.1 hnd).2 hndk' hmem'
    simp only [List.length_cons]
    omega

theorem mem_expiredKeys (d : List (String × Int)) (now : Int) (k : String) :
    k ∈ (d.filter (fun p => p.2 < now)).map Prod.fst ↔
      ∃ e, (k, e) ∈ d ∧ e < now := by
  simp only [List.mem_map, List.mem_filter, decide_eq_true_eq]
  constructor
  · rintro ⟨⟨k', e⟩, ⟨hmem, hlt⟩, rfl⟩
    exact ⟨e, hmem, hlt⟩
  · rintro ⟨e, hmem, hlt⟩
    exact ⟨(k, e), ⟨hmem, hlt⟩, rfl⟩

theorem nodup_expiredKeys (d : List (String × Int)) (now : Int)
    (hnd : (dictKeys d).Nodup) :
    ((d.filter (fun p => p.2 < now)).map Prod.fst).Nodup := by
  have hsub : ((d.filter (fun p => p.2 < now)).map Prod.fst).Sublist (d.map Prod.fst) :=
    (List.filter_sublist d).map Prod.fst
  exact hnd.sublist hsub

/-! ### Normalization lemmas for the cache key -/

theorem isWhitespace_pyLowerChar (c : Char) :
    (pyLowerChar c).isWhitespace = c.isWhitespace := by
  by_cases h1 : c = 'A'
  · subst h1
    decide
  by_cases h2 : c = 'B'
  · subst h2
    decide
  by_cases h3 : c = 'C'
  · subst h3
    decide
  by_cases h4 : c = 'D'
  · subst h4
    decide
  by_cases h5 : c = 'E'
  · subst h5
    decide
  by_cases h6 : c = 'F'
  · subst h6
    decide
  by_cases h7 : c = 'G'
  · subst h7
    decide
  by_cases h8 : c = 'H'
  · subst h8
    decide
  by_cases h9 : c = 'I'
  · subst h9
    decide
  by_cases h10 : c = 'J'
  · subst h10
    decide
  by_cases h11 : c = 'K'
  · subst h11
    decide
  by_cases h12 : c = 'L'
  · subst h12
    decide
  by_cases h13 : c = 'M'
  · subst h13
    decide
  by_cases h14 : c = 'N'
  · subst h14
    decide
  by_cases h15 : c = 'O'
  · subst h15
    decide
  by_cases h16 : c = 'P'
  · subst h16
    decide
  by_cases h17 : c = 'Q'
  · subst h17
    decide
  by_cases h18 : c = 'R'
  · subst h18
    decide
  by_cases h19 : c = 'S'
  · subst h19
    decide
  by_cases h20 : c = 'T'
  · subst h20
    decide
  by_cases h21 : c = 'U'
  · subst h21
    decide
  by_cases h22 : c = 'V'
  · subst h22
    decide
  by_cases h23 : c = 'W'
  · subst h23
    decide
  by_cases h24 : c = 'X'
  · subst h24
    decide
  by_cases h25 : c = 'Y'
  · subst h25
    decide
  by_cases h26 : c = 'Z'
  · subst h26
    decide
  have hc : pyLowerChar c = c := by
    unfold pyLowerChar
    rw [if_neg h1, if_neg h2, if_neg h3, if_neg h4, if_neg h5, if_neg h6, if_neg h7, if_neg h8, if_neg h9, if_neg h10, if_neg h11, if_neg h12, if_neg h13, if_neg h14, if_neg h15, if_neg h16, if_neg h17, if_neg h18, if_neg h19, if_neg h20, if_neg h21, if_neg h22, if_neg h23, if_neg h24, if_neg h25, if_neg h26]
  rw [hc]

theorem pyLowerChar_idem (c : Char) :
    pyLowerChar (pyLowerChar c) = pyLowerChar c := by
  by_cases h1 : c = 'A'
  · subst h1
    decide
  by_cases h2 : c = 'B'
  · subst h2
    decide
  by_cases h3 : c = 'C'
  · subst h3
    decide
  by_cases h4 : c = 'D'
  · subst h4
    decide
  by_cases h5 : c = 'E'
  · subst h5
    decide
  by_cases h6 : c = 'F'
  · subst h6
    decide
  by_cases h7 : c = 'G'
  · subst h7
    decide
  by_cases h8 : c = 'H'
  · subst h8
    decide
  by_cases h9 : c = 'I'
  · subst h9
    decide
  by_cases h10 : c = 'J'
  · subst h10
    decide
  by_cases h11 : c = 'K'
  · subst h11
    decide
  by_cases h12 : c = 'L'
  · subst h12
    decide
  by_cases h13 : c = 'M'
  · subst h13
    decide
  by_cases h14 : c = 'N'
  · subst h14
    decide
  by_cases h15 : c = 'O'
  · subst h15
    decide
  by_cases h16 : c = 'P'
  · subst h16
    decide
  by_cases h17 : c = 'Q'
  · subst h17
    decide
  by_cases h18 : c = 'R'
  · subst h18
    decide
  by_cases h19 : c = 'S'
  · subst h19
    decide
  by_cases h20 : c = 'T'
  · subst h20
    decide
  by_cases h21 : c = 'U'
  · subst h21
    decide
  by_cases h22 : c = 'V'
  · subst h22
    decide
  by_cases h23 : c = 'W'
  · subst h23
    decide
  by_cases h24 : c = 'X'
  · subst h24
    decide
  by_cases h25 : c = 'Y'
  · subst h25
    decide
  by_cases h26 : c = 'Z'
  · subst h26
    decide
  have hc : pyLowerChar c = c := by
    unfold pyLowerChar
    rw [if_neg h1, if_neg h2, if_neg h3, if_neg h4, if_neg h5, if_neg h6, if_neg h7, if_neg h8, if_neg h9, if_neg h10, if_neg h11, if_neg h12, if_neg h13, if_neg h14, if_neg h15, if_neg h16, if_neg h17, if_neg h18, if_neg h19, if_neg h20, if_neg h21, if_neg h22, if_neg h23, if_neg h24, if_neg h25, if_neg h26]
  rw [hc, hc]

theorem wordsAux_map (l acc : List Char) :
    wordsAux (l.map pyLowerChar) (acc.map pyLowerChar) =
      (wordsAux l acc).map (List.map pyLowerChar) := by
  induction l generalizing acc with
  | nil =>
    cases acc with
    | nil => simp [wordsAux]
    | cons a as => simp [wordsAux, List.map_reverse]
  | cons c cs ih =>
    simp only [List.map_cons, wordsAux, isWhitespace_pyLowerChar]
    by_cases h : c.isWhitespace
    · rw [if_pos h, if_pos h]
      cases acc with
      | nil =>
        simpa using ih []
      | cons a as =>
        simp only [List.map_cons]
        have := ih []
        simp only [List.map_nil] at this
        rw [this]
        simp [List.map_reverse]
    · rw [if_neg h, if_neg h]
      have := ih (c :: acc)
      simpa using this

theorem joinWords_map (ws : List (List Char)) :
    joinWords (ws.map (List.map pyLowerChar)) = (joinWords ws).map pyLowerChar := by
  induction ws with
  | nil => simp [joinWords]
  | cons w rest ih =>
    cases rest with
    | nil => simp [joinWords]
    | cons v rest' =>
      have ih' := ih
      simp only [List.map_cons] at ih'
      simp only [List.map_cons, joinWords, List.map_append, ih']
      simp [show pyLowerChar ' ' = ' ' by decide]

theorem map_pyLowerChar_idem (l : List Char) :
    (l.map pyLowerChar).map pyLowerChar = l.map pyLowerChar := by
  induction l with
  | nil => rfl
  | cons c cs ih => simp [pyLowerChar_idem, ih]

theorem normalizeQuery_pyLower (q : String) :
    normalizeQuery (pyLower q) = normalizeQuery q := by
  unfold normalizeQuery pySplit
  have h1 : (pyLower q).toList = q.toList.map pyLowerChar := rfl
  rw [h1]
  have h2 := wordsAux_map q.toList []
  simp only [List.map_nil] at h2
  rw [h2, joinWords_map, map_pyLowerChar_idem]

/-! ### Claim theorems -/

/-- Claim C8: `generate_cache_key` is deterministic (a pure function of its
arguments, so repeated calls on equal inputs agree), and it is invariant
under whitespace-run collapsing and case changes of the query text: the
spec's concrete pair `"SELECT  *  FROM t"` / `"select * from t"` receives
one key, and lower-casing an arbitrary query never changes its key. -/
theorem fingerprint_deterministic_and_normalized :
    (∀ (query : String) (params : Params) (db_name : String),
      generate_cache_key query params db_name =
        generate_cache_key query params db_name) ∧
    (∀ (params : Params) (db_name : String),
      generate_cache_key "SELECT  *  FROM t" params db_name =
        generate_cache_key "select * from t" params db_name) ∧
    (∀ (query : String) (params : Params) (db_name : String),
      generate_cache_key (pyLower query) params db_name =
        generate_cache_key query params db_name) := by
  refine ⟨fun _ _ _ => rfl, fun params db_name => ?_, fun query params db_name => ?_⟩
  · simp only [generate_cache_key]
    rw [show normalizeQuery "SELECT  *  FROM t" = normalizeQuery "select * from t"
      by decide]
  · simp only [generate_cache_key]
    rw [normalizeQuery_pyLower]

/-- Claim C10: a parameterless submission (`params` absent, i.e. `None`) and
a submission carrying an empty params dict produce the same cache key, since
`json.dumps(params, sort_keys=True) if params else ""` treats both as falsy. -/
theorem empty_params_same_fingerprint (query db_name : String) :
    generate_cache_key query (some []) db_name =
      generate_cache_key query none db_name := rfl

theorem execute_query_body_ok_task (engine : EngineOutcome) (query : String)
    (params : Params) (db_name : String) (cache_ttl : Option Int)
    (force_refresh : Bool) (now elapsed : Int) (qc : QueryCache) (r : ExecResult)
    (h : execute_query_body engine query params db_name cache_ttl force_refresh
      now elapsed qc = .ok r) : r.task ≠ TaskState.pending := by
  simp only [execute_query_body] at h
  split at h <;> (try split at h) <;> (try split at h) <;> (try split at h) <;>
    (try split at h) <;>
    first
      | exact Except.noConfusion h
      | (injection h with h2
         rw [← h2]
         simp)

theorem execute_query_task_terminal (engine : EngineOutcome) (query : String)
    (params : Params) (db_name : String) (cache_ttl : Option Int)
    (force_refresh : Bool) (now elapsed : Int) (qc : QueryCache) :
    (execute_query engine query params db_name cache_ttl force_refresh now
      elapsed qc).task ≠ TaskState.pending := by
  simp only [execute_query]
  split
  · rename_i r heq
    exact execute_query_body_ok_task engine query params db_name cache_ttl
      force_refresh now elapsed qc r heq
  · simp

/-- Claim C1: contrary to the async-submission contract, the `/query` handler
`await`s `loop.run_in_executor(executor, execute_query, ...)`, so it resumes
only after `execute_query` has already written a terminal state under the
fresh id.  The response status is therefore never `pending`, and a
`get_query_status` issued after `run_query` returns can never observe
`pending` for that id: submission and await-completion are collapsed into one
blocking call. -/
theorem run_query_blocks_until_terminal (engine : EngineOutcome) (query : String)
    (params : Params) (db_name : String) (cache_ttl : Option Int)
    (force_refresh : Bool) (now elapsed : Int) (query_id : String) (st : AppState) :
    (run_query engine query params db_name cache_ttl force_refresh now elapsed
      query_id st).2 ≠ TaskState.pending ∧
    get_query_status query_id (run_query engine query params db_name cache_ttl
      force_refresh now elapsed query_id st).1 ≠ some TaskState.pending := by
  have hterm := execute_query_task_terminal engine query params db_name cache_ttl
    force_refresh now elapsed st.query_cache
  constructor
  · simp only [run_query, dictLookup_dictSet]
    simpa using hterm
  · simp only [run_query, get_query_status, dictLookup_dictSet]
    simpa using hterm

/-- Claim C7: any failure of the engine interaction during execution is
caught by the catch-all `except` of `execute_query` and recorded into the
task as a terminal `error` state carrying `str(e)` and the elapsed duration;
`run_query` (the submission caller) receives that task as ordinary response
data — the model's `execute_query` is a total function into states, so no
exception crosses it. (`hmiss` states that the probe before execution did not
hit, which is what makes the engine call happen at all.) -/
theorem execution_failure_recorded (m : String) (query : String) (params : Params)
    (db_name : String) (cache_ttl : Option Int) (force_refresh : Bool)
    (now elapsed : Int) (query_id : String) (st : AppState)
    (hmiss : force_refresh = true ∨
      (st.query_cache.get now (generate_cache_key query params db_name)).2.1 = false) :
    (execute_query (.err m) query params db_name cache_ttl force_refresh now
      elapsed st.query_cache).task = TaskState.error m elapsed ∧
    (run_query (.err m) query params db_name cache_ttl force_refresh now elapsed
      query_id st).2 = TaskState.error m elapsed := by
  have hbody : execute_query_body (.err m) query params db_name cache_ttl
      force_refresh now elapsed st.query_cache =
      .error (m, (if force_refresh then ((none : Option (List Row)), false,
        st.query_cache) else st.query_cache.get now
        (generate_cache_key query params db_name)).2.2) := by
    simp only [execute_query_body]
    cases force_refresh with
    | true => simp
    | false =>
      rcases hmiss with hfr | hm
      · exact absurd hfr (by simp)
      · simp [hm]
  have htask : (execute_query (.err m) query params db_name cache_ttl
      force_refresh now elapsed st.query_cache).task = TaskState.error m elapsed := by
    simp only [execute_query, hbody]
  refine ⟨htask, ?_⟩
  simp only [run_query, dictLookup_dictSet]
  simpa using htask

/-- Witness for C7 at a concrete failing submission: a malformed statement
whose engine call raises `"syntax error"`, on a fresh cache. -/
theorem execution_failure_recorded_witness :
    ((false : Bool) = true ∨
      (((initCache 1000 300).get 0 (generate_cache_key "SELEC * FRM t" none
        "default")).2.1) = false) ∧
    (execute_query (.err "syntax error") "SELEC * FRM t" none "default"
      none false 0 2 (initCache 1000 300)).task = TaskState.error "syntax error" 2 ∧
    (run_query (.err "syntax error") "SELEC * FRM t" none "default"
      none false 0 2 "qid" ⟨initCache 1000 300, []⟩).2 =
        TaskState.error "syntax error" 2 :=
  ⟨Or.inr (by decide),
    (execution_failure_recorded "syntax error" "SELEC * FRM t" none "default"
      none false 0 2 "qid" ⟨initCache 1000 300, []⟩ (Or.inr (by decide))).1,
    (execution_failure_recorded "syntax error" "SELEC * FRM t" none "default"
      none false 0 2 "qid" ⟨initCache 1000 300, []⟩ (Or.inr (by decide))).2⟩

/-- Claim C6: a successful submission whose statement is not classified as a
read (`query.strip().upper().startswith("SELECT")` is false) commits
(`committed = true`), leaves the cache exactly unchanged, and completes with
the single row `[{"rows_affected": cursor.rowcount}]` rather than row data.
(`hnohit`: the statement's fingerprint is absent from the cache — write
fingerprints only enter the cache through a fingerprint collision with a
cached read, which the digest makes supposedly impossible; with
`force_refresh` the probe is skipped altogether.) -/
theorem write_statement_bypasses_cache (rows : List Row) (rowcount : Int)
    (query : String) (params : Params) (db_name : String) (cache_ttl : Option Int)
    (force_refresh : Bool) (now elapsed : Int) (qc : QueryCache)
    (hwrite : pyStartswith (pyUpper (pyStrip query)) "SELECT" = false)
    (hnohit : force_refresh = true ∨
      dictLookup qc.cache (generate_cache_key query params db_name) = none) :
    execute_query (.ok rows rowcount) query params db_name cache_ttl force_refresh
        now elapsed qc =
      { cache := qc,
        task := TaskState.completed [[("rows_affected", SqlValue.int rowcount)]]
          false elapsed,
        committed := true } := by
  have hchecked : (if force_refresh then ((none : Option (List Row)), false, qc)
      else qc.get now (generate_cache_key query params db_name)) =
      (none, false, qc) := by
    cases force_refresh with
    | true => simp
    | false =>
      rcases hnohit with hfr | hm
      · exact absurd hfr (by simp)
      · simpa using get_miss qc now _ hm
  simp only [execute_query, execute_query_body, hchecked, hwrite]
  simp

/-- Witness for C6 at a concrete INSERT affecting one row, on a fresh cache. -/
theorem write_statement_bypasses_cache_witness :
    pyStartswith (pyUpper (pyStrip "INSERT INTO example VALUES (1)")) "SELECT"
      = false ∧
    ((false : Bool) = true ∨ dictLookup (initCache 1000 300).cache
      (generate_cache_key "INSERT INTO example VALUES (1)" none "default") = none) ∧
    execute_query (.ok [] 1) "INSERT INTO example VALUES (1)" none "default"
        none false 0 3 (initCache 1000 300) =
      { cache := initCache 1000 300,
        task := TaskState.completed [[("rows_affected", SqlValue.int 1)]] false 3,
        committed := true } :=
  ⟨by decide, Or.inr (by decide),
    write_statement_bypasses_cache [] 1 "INSERT INTO example VALUES (1)" none
      "default" none false 0 3 (initCache 1000 300) (by decide)
      (Or.inr (by decide))⟩

/-- Counterexample to claim C2: with capacity 2, after `set a; set b` the
cache is full and `b` is present; the claim predicts that `set b` (an
overwrite of an already-present key in a full cache) evicts nothing, yet the
code evicts the LRU head `a` — afterwards `a` is gone and only one entry
remains. -/
theorem set_overwrite_evicts_counterexample :
    dictContains ((((initCache 2 300).set 0 "a" [] none).set 0 "b" [] none).set
      0 "b" [] none).cache "a" = false ∧
    (((((initCache 2 300).set 0 "a" [] none).set 0 "b" [] none).set
      0 "b" [] none).cache).length = 1 := by
  decide

/-- Claim C2 (amended): `set(key, ...)` evicts the head of the LRU order iff
the cache already holds at least `MaxCacheSize` entries — irrespective of
whether `key` is already present.  When the cache is full and the LRU head
`hd` differs from `key`, `hd` is evicted (even on an overwrite of a present
`key`) and every other present key survives; when the cache is below
capacity, nothing is evicted and every present key survives. -/
theorem set_evicts_head_iff_full (qc : QueryCache) (cache_key hd : String)
    (result : List Row) (ttl : Option Int) (now : Int) :
    (qc.max_cache_size ≤ qc.cache.length → qc.lru_keys.head? = some hd →
      hd ≠ cache_key →
      dictContains ((qc.set now cache_key result ttl).cache) hd = false ∧
      (∀ k, k ≠ hd → dictContains qc.cache k = true →
        dictContains ((qc.set now cache_key result ttl).cache) k = true)) ∧
    (qc.cache.length < qc.max_cache_size →
      ∀ k, dictContains qc.cache k = true →
        dictContains ((qc.set now cache_key result ttl).cache) k = true) := by
  constructor
  · intro hfull hhd hne
    obtain ⟨rest, hl⟩ : ∃ rest, qc.lru_keys = hd :: rest := by
      cases hlk : qc.lru_keys with
      | nil => rw [hlk] at hhd; exact Option.noConfusion hhd
      | cons a rest =>
        rw [hlk] at hhd
        simp only [List.head?_cons, Option.some.injEq] at hhd
        exact ⟨rest, by rw [hhd]⟩
    rw [QueryCache.set, if_pos hfull, removeLruItem_eq_cons qc hd rest hl]
    constructor
    · simp only [QueryCache.insertEntry, dictContains, dictLookup_dictSet]
      rw [if_neg hne]
      rw [show ((({ qc with lru_keys := rest } : QueryCache)).removeItem hd).cache
        = dictDelete qc.cache hd from rfl]
      rw [dictLookup_dictDelete, if_pos rfl]
      rfl
    · intro k hk hmem
      simp only [QueryCache.insertEntry, dictContains, dictLookup_dictSet]
      by_cases hkc : k = cache_key
      · simp [hkc]
      · rw [if_neg hkc]
        rw [show ((({ qc with lru_keys := rest } : QueryCache)).removeItem hd).cache
          = dictDelete qc.cache hd from rfl]
        rw [dictLookup_dictDelete, if_neg hk]
        exact hmem
  · intro hlt k hmem
    rw [QueryCache.set, if_neg (by omega)]
    simp only [QueryCache.insertEntry, dictContains, dictLookup_dictSet]
    by_cases hkc : k = cache_key
    · simp [hkc]
    · rw [if_neg hkc]
      exact hmem

/-- Witness for C2 (amended) at the counterexample state: capacity-2 cache
holding `a` (LRU head) and `b`; `set b` evicts `a` while `b` survives. -/
theorem set_evicts_head_iff_full_witness :
    ((((initCache 2 300).set 0 "a" [] none).set 0 "b" [] none).max_cache_size ≤
      ((((initCache 2 300).set 0 "a" [] none).set 0 "b" [] none).cache).length ∧
     (((initCache 2 300).set 0 "a" [] none).set 0 "b" [] none).lru_keys.head? =
       some "a" ∧ "a" ≠ "b") ∧
    (dictContains (((((initCache 2 300).set 0 "a" [] none).set 0 "b" [] none).set
      0 "b" [] none).cache) "a" = false ∧
     (∀ k, k ≠ "a" →
       dictContains ((((initCache 2 300).set 0 "a" [] none).set 0 "b" [] none).cache)
         k = true →
       dictContains (((((initCache 2 300).set 0 "a" [] none).set 0 "b" [] none).set
         0 "b" [] none).cache) k = true)) :=
  ⟨⟨by decide, by decide, by decide⟩,
    (set_evicts_head_iff_full (((initCache 2 300).set 0 "a" [] none).set 0 "b" [] none)
      "b" "a" [] none 0).1 (by decide) (by decide) (by decide)⟩

/-- Counterexample to claim C5: `cleanup_expired` collects keys with
`current_time > v` (strict), so an entry whose `expiresAt` equals `now` is
not removed and the returned count is 0, while the claim demands its
removal.  Concretely: `set("k", ttl=5)` at instant 0, cleanup at instant 5. -/
theorem cleanup_boundary_counterexample :
    (((initCache 10 300).set 0 "k" [] (some 5)).cleanupExpired 5).1 = 0 ∧
    dictContains ((((initCache 10 300).set 0 "k" [] (some 5)).cleanupExpired
      5).2.cache) "k" = true := by
  decide

/-- Claim C5 (amended): on a well-formed cache state, `cleanup_expired(now)`
removes exactly those entries whose `expiresAt` is strictly below `now`
(an entry expiring at exactly `now` stays), leaves every other entry's stored
value and expiry untouched, and returns the number of entries removed. -/
theorem cleanup_removes_strictly_expired (qc : QueryCache) (now : Int)
    (hwf : WF qc) :
    (qc.cleanupExpired now).1 + (((qc.cleanupExpired now).2).cache).length =
      qc.cache.length ∧
    (∀ k e, dictLookup qc.expiration_times k = some e → e < now →
      dictContains (((qc.cleanupExpired now).2).cache) k = false) ∧
    (∀ k e, dictLookup qc.expiration_times k = some e → ¬ e < now →
      dictLookup (((qc.cleanupExpired now).2).cache) k = dictLookup qc.cache k ∧
      dictLookup (((qc.cleanupExpired now).2).expiration_times) k = some e) := by
  have hfst : (qc.cleanupExpired now).1 =
      ((qc.expiration_times.filter (fun p => p.2 < now)).map Prod.fst).length := rfl
  have hsnd : (qc.cleanupExpired now).2 =
      ((qc.expiration_times.filter (fun p => p.2 < now)).map Prod.fst).foldl
        (fun q k => q.removeItem k) qc := rfl
  have hnd_expired :
      ((qc.expiration_times.filter (fun p => p.2 < now)).map Prod.fst).Nodup :=
    nodup_expiredKeys qc.expiration_times now hwf.2.1
  have hmem_expired : ∀ k ∈ (qc.expiration_times.filter
      (fun p => p.2 < now)).map Prod.fst, k ∈ dictKeys qc.cache := by
    intro k hk
    rcases (mem_expiredKeys qc.expiration_times now k).1 hk with ⟨e, hmem, _⟩
    exact hwf.2.2.2.2.1 k (List.mem_map_of_mem Prod.fst hmem)
  refine ⟨?_, ?_, ?_⟩
  · rw [hfst, hsnd]
    have := foldl_removeItem_cache_length _ qc hnd_expired hwf.1 hmem_expired
    omega
  · intro k e hlk hlt
    have hkexp : k ∈ (qc.expiration_times.filter (fun p => p.2 < now)).map
        Prod.fst :=
      (mem_expiredKeys qc.expiration_times now k).2
        ⟨e, mem_of_dictLookup_eq_some qc.expiration_times k e hlk, hlt⟩
    rw [hsnd]
    simp [dictContains, foldl_removeItem_cache_lookup, hkexp]
  · intro k e hlk hnlt
    have hknot : k ∉ (qc.expiration_times.filter (fun p => p.2 < now)).map
        Prod.fst := by
      intro hk
      rcases (mem_expiredKeys qc.expiration_times now k).1 hk with ⟨e', hm', hlt'⟩
      have hlk' := dictLookup_eq_some_of_mem qc.expiration_times k e' hwf.2.1 hm'
      rw [hlk] at hlk'
      injection hlk' with he
      rw [he] at hnlt
      exact hnlt hlt'
    rw [hsnd]
    constructor
    · rw [foldl_removeItem_cache_lookup, if_neg hknot]
    · rw [foldl_removeItem_exp_lookup, if_neg hknot]
      exact hlk

/-- Witness for C5 (amended) on a two-entry cache: `"old"` expired strictly
before instant 0 and is removed (count 1); `"fresh"` expires later and keeps
its value and expiry. -/
theorem cleanup_removes_strictly_expired_witness :
    WF (((initCache 10 300).set 0 "old" [] (some (-5))).set 0 "fresh" []
      (some 50)) ∧
    (((((initCache 10 300).set 0 "old" [] (some (-5))).set 0 "fresh" []
        (some 50)).cleanupExpired 0).1 +
      ((((((initCache 10 300).set 0 "old" [] (some (-5))).set 0 "fresh" []
        (some 50)).cleanupExpired 0).2).cache).length =
      ((((initCache 10 300).set 0 "old" [] (some (-5))).set 0 "fresh" []
        (some 50)).cache).length) ∧
    (∀ k e, dictLookup (((initCache 10 300).set 0 "old" [] (some (-5))).set 0
        "fresh" [] (some 50)).expiration_times k = some e → e < 0 →
      dictContains ((((((initCache 10 300).set 0 "old" [] (some (-5))).set 0
        "fresh" [] (some 50)).cleanupExpired 0).2).cache) k = false) ∧
    (∀ k e, dictLookup (((initCache 10 300).set 0 "old" [] (some (-5))).set 0
        "fresh" [] (some 50)).expiration_times k = some e → ¬ e < 0 →
      dictLookup ((((((initCache 10 300).set 0 "old" [] (some (-5))).set 0
        "fresh" [] (some 50)).cleanupExpired 0).2).cache) k =
        dictLookup (((initCache 10 300).set 0 "old" [] (some (-5))).set 0
          "fresh" [] (some 50)).cache k ∧
      dictLookup ((((((initCache 10 300).set 0 "old" [] (some (-5))).set 0
        "fresh" [] (some 50)).cleanupExpired 0).2).expiration_times) k = some e) :=
  ⟨by decide,
    (cleanup_removes_strictly_expired (((initCache 10 300).set 0 "old" []
      (some (-5))).set 0 "fresh" [] (some 50)) 0 (by decide)).1,
    (cleanup_removes_strictly_expired (((initCache 10 300).set 0 "old" []
      (some (-5))).set 0 "fresh" [] (some 50)) 0 (by decide)).2.1,
    (cleanup_removes_strictly_expired (((initCache 10 300).set 0 "old" []
      (some (-5))).set 0 "fresh" [] (some 50)) 0 (by decide)).2.2⟩

theorem max_cache_size_runOps (qc : QueryCache) (ops : List CacheOp) :
    (runOps qc ops).max_cache_size = qc.max_cache_size := by
  induction ops generalizing qc with
  | nil => rfl
  | cons op rest ih =>
    show (runOps (applyOp qc op) rest).max_cache_size = _
    rw [ih, max_cache_size_applyOp]

/-- Claim C3: starting from the freshly initialized cache with a positive
configured capacity (`MAX_CACHE_SIZE`, default 1000), after any sequence of
cache operations — in particular immediately after any `set` returns — the
number of entries is at most `MaxCacheSize`.  (A zero capacity would break
the bound: `set` would evict from an empty LRU list, a no-op, then insert.) -/
theorem capacity_bound_invariant (max_cache_size : Nat) (default_ttl : Int)
    (ops : List CacheOp) (hmax : 1 ≤ max_cache_size) :
    ((runOps (initCache max_cache_size default_ttl) ops).cache).length ≤
      max_cache_size := by
  have h := invariant_runOps ops (initCache max_cache_size default_ttl)
    (WF_initCache max_cache_size default_ttl) hmax (by simp [initCache])
  have hm := max_cache_size_runOps (initCache max_cache_size default_ttl) ops
  have h22 := h.2.2
  rw [hm] at h22
  exact h22

/-- Witness for C3: five operations on a capacity-2 cache, including the
overflowing third `set`, stay within the bound. -/
theorem capacity_bound_invariant_witness :
    1 ≤ 2 ∧
    ((runOps (initCache 2 300) [CacheOp.set 0 "a" [] none,
      CacheOp.set 0 "b" [] none, CacheOp.set 1 "c" [] none,
      CacheOp.get 1 "a", CacheOp.cleanup 2]).cache).length ≤ 2 :=
  ⟨by decide, capacity_bound_invariant 2 300 [CacheOp.set 0 "a" [] none,
    CacheOp.set 0 "b" [] none, CacheOp.set 1 "c" [] none,
    CacheOp.get 1 "a", CacheOp.cleanup 2] (by decide)⟩

/-- Claim C4: with capacity 2, distinct keys and a positive default TTL
(so the entries are unexpired at the time of the `get`): after
`set a; set b; set c` the key `a` is evicted while `b, c` remain; a `get a`
hit between `set b` and `set c` moves `a` to the LRU tail (`lru_keys`
becomes `[b, a]`), after which `set c` evicts `b` instead and `a, c`
remain — eviction always removes the LRU head. -/
theorem lru_eviction_order (a b c : String) (d : Int)
    (hab : a ≠ b) (hac : a ≠ c) (hbc : b ≠ c) (hd : 0 < d) :
    (dictContains ((((initCache 2 d).set 0 a [] none).set 0 b [] none).set 0 c
        [] none).cache a = false ∧
      dictContains ((((initCache 2 d).set 0 a [] none).set 0 b [] none).set 0 c
        [] none).cache b = true ∧
      dictContains ((((initCache 2 d).set 0 a [] none).set 0 b [] none).set 0 c
        [] none).cache c = true) ∧
    ((((initCache 2 d).set 0 a [] none).set 0 b [] none).get 0 a).2.2.lru_keys
      = [b, a] ∧
    (dictContains (((((initCache 2 d).set 0 a [] none).set 0 b [] none).get 0
        a).2.2.set 0 c [] none).cache b = false ∧
      dictContains (((((initCache 2 d).set 0 a [] none).set 0 b [] none).get 0
        a).2.2.set 0 c [] none).cache a = true ∧
      dictContains (((((initCache 2 d).set 0 a [] none).set 0 b [] none).get 0
        a).2.2.set 0 c [] none).cache c = true) := by
  have hba := Ne.symm hab
  have hca := Ne.symm hac
  have hcb := Ne.symm hbc
  refine ⟨⟨?_, ?_, ?_⟩, ?_, ?_, ?_, ?_⟩ <;>
    simp [initCache, QueryCache.set, QueryCache.insertEntry,
      QueryCache.removeLruItem, QueryCache.removeItem, QueryCache.get, dictSet,
      dictDelete, dictLookup, dictContains, dictKeys, listRemove, hab, hac, hbc,
      hba, hca, hcb, hd]

/-- Witness for C4 at the concrete keys `"a", "b", "c"` and the default TTL
of 300 seconds. -/
theorem lru_eviction_order_witness :
    ("a" ≠ "b" ∧ "a" ≠ "c" ∧ "b" ≠ "c" ∧ (0 : Int) < 300) ∧
    (dictContains ((((initCache 2 300).set 0 "a" [] none).set 0 "b" []
        none).set 0 "c" [] none).cache "a" = false ∧
      dictContains ((((initCache 2 300).set 0 "a" [] none).set 0 "b" []
        none).set 0 "c" [] none).cache "b" = true ∧
      dictContains ((((initCache 2 300).set 0 "a" [] none).set 0 "b" []
        none).set 0 "c" [] none).cache "c" = true) ∧
    ((((initCache 2 300).set 0 "a" [] none).set 0 "b" [] none).get 0
      "a").2.2.lru_keys = ["b", "a"] ∧
    (dictContains (((((initCache 2 300).set 0 "a" [] none).set 0 "b" []
        none).get 0 "a").2.2.set 0 "c" [] none).cache "b" = false ∧
      dictContains (((((initCache 2 300).set 0 "a" [] none).set 0 "b" []
        none).get 0 "a").2.2.set 0 "c" [] none).cache "a" = true ∧
      dictContains (((((initCache 2 300).set 0 "a" [] none).set 0 "b" []
        none).get 0 "a").2.2.set 0 "c" [] none).cache "c" = true) :=
  ⟨⟨by decide, by decide, by decide, by decide⟩,
    (lru_eviction_order "a" "b" "c" 300 (by decide) (by decide) (by decide)
      (by decide)).1,
    (lru_eviction_order "a" "b" "c" 300 (by decide) (by decide) (by decide)
      (by decide)).2.1,
    (lru_eviction_order "a" "b" "c" 300 (by decide) (by decide) (by decide)
      (by decide)).2.2⟩

/-- Witness for C1 at a concrete successful `SELECT 1` submission on a fresh
application state. -/
theorem run_query_blocks_until_terminal_witness :
    (run_query (.ok [[("1", SqlValue.int 1)]] 0) "SELECT 1" none "default" none
      false 0 1 "qid" ⟨initCache 1000 300, []⟩).2 ≠ TaskState.pending ∧
    get_query_status "qid" (run_query (.ok [[("1", SqlValue.int 1)]] 0) "SELECT 1"
      none "default" none false 0 1 "qid" ⟨initCache 1000 300, []⟩).1 ≠
      some TaskState.pending :=
  ⟨(run_query_blocks_until_terminal (.ok [[("1", SqlValue.int 1)]] 0) "SELECT 1"
      none "default" none false 0 1 "qid" ⟨initCache 1000 300, []⟩).1,
    (run_query_blocks_until_terminal (.ok [[("1", SqlValue.int 1)]] 0) "SELECT 1"
      none "default" none false 0 1 "qid" ⟨initCache 1000 300, []⟩).2⟩

/-- Witness for C8 at concrete inputs: determinism on `"SELECT 1"`, the
whitespace/case pair of the spec, and lower-casing a mixed-case query. -/
theorem fingerprint_deterministic_and_normalized_witness :
    generate_cache_key "SELECT 1" none "default" =
      generate_cache_key "SELECT 1" none "default" ∧
    generate_cache_key "SELECT  *  FROM t" none "default" =
      generate_cache_key "select * from t" none "default" ∧
    generate_cache_key (pyLower "SeLeCt * FROM t") none "default" =
      generate_cache_key "SeLeCt * FROM t" none "default" :=
  ⟨fingerprint_deterministic_and_normalized.1 "SELECT 1" none "default",
    fingerprint_deterministic_and_normalized.2.1 none "default",
    fingerprint_deterministic_and_normalized.2.2 "SeLeCt * FROM t" none "default"⟩
